import Mathlib

/-!
Shallow embedding of the "10,000" dice game implementation (`game.py`):
the scoring engine (`calculate_score`, `count_scoring_dice`), the turn
state machine (`player_turn`), and the game loop (`start`), together with
theorems settling the specification claims about them.

Interactive input (successive `input()` results, normalized tokens) and
dice rolls (successive `roll_dice` results) are modelled as explicit
streams consumed in program order; the player's mutable `total_score` is
modelled by returning the post-turn value.
-/

namespace TenThousand

open scoped List

/-- Value contributed by one distinct face in the set-scoring loop of
`calculate_score`: a face appearing three or more times scores
`(1000 if face == 1 else face*100) * 2^(count-3)`, otherwise nothing here. -/
def setTerm (dice : List Nat) (n : Nat) : Nat :=
  if 3 ≤ dice.count n then (if n = 1 then 1000 else n * 100) * 2 ^ (dice.count n - 3)
  else 0

/-- Count left for a face after the set-scoring loop ran `counts[num] -= cnt`
for every face with count at least three (that subtraction zeroes the entry). -/
def remCount (dice : List Nat) (n : Nat) : Nat :=
  if 3 ≤ dice.count n then 0 else dice.count n

/-- Embedding of `Game.calculate_score`.  `Counter(dice)` keys become the
distinct values of `dice`; `sorted(counts.keys())` is an insertion sort of
those keys; the straight and three-pairs branches and the set/single
accumulation mirror the Python line by line. -/
def calculate_score (dice : List Nat) : Nat :=
  if dice.dedup.insertionSort (· ≤ ·) = [1, 2, 3, 4, 5, 6] then 1000
  else if dice.dedup.length = 3 ∧ (∀ v ∈ dice.dedup, dice.count v = 2) then 1000
  else
    (dice.dedup.map (setTerm dice)).sum
      + remCount dice 1 * 100 + remCount dice 5 * 50

/-- Embedding of `Game.count_scoring_dice`: dice used in sets of three or
more, plus `counts[1] % 3` and `counts[5] % 3` leftover singles. -/
def count_scoring_dice (dice : List Nat) : Nat :=
  (dice.dedup.map (fun n => if 3 ≤ dice.count n then dice.count n else 0)).sum
    + dice.count 1 % 3 + dice.count 5 % 3

/-- How a turn ended: a bust, or a bank of the accumulated turn score. -/
inductive TurnOutcome where
  | busted : TurnOutcome
  | banked : Nat → TurnOutcome
deriving DecidableEq, Repr

/-- Embedding of the `while True` loop of `Game.player_turn`.  `totalScore`
is the player's `total_score` on entry (read by the entry-threshold gate and
updated by banking), `turnScore` and `diceLeft` are the loop locals, `answers`
the successive normalized `input()` tokens, `rolls` the successive results of
`player.roll_dice`.  Returns the outcome together with the player's
`total_score` after the turn; `none` models blocking forever on an exhausted
input stream. -/
def playerTurnLoop (totalScore turnScore diceLeft : Nat) :
    List String → List (List Nat) → Option (TurnOutcome × Nat)
  | [], _ => none
  | choice :: ans, rolls =>
    if choice = "N" then
      if totalScore + turnScore < 800 then
        playerTurnLoop totalScore turnScore diceLeft ans rolls
      else some (.banked turnScore, totalScore + turnScore)
    else
      match rolls with
      | [] => none
      | roll :: rs =>
        let rollScore := calculate_score roll
        if rollScore = 0 then some (.busted, totalScore)
        else
          let turnScore2 := turnScore + rollScore
          let scoring := count_scoring_dice roll
          let diceLeft2 := if 0 < diceLeft - scoring then diceLeft - scoring else 6
          if diceLeft2 = 6 then
            match ans with
            | [] => none
            | hot :: ans2 =>
              if hot = "B" then some (.banked turnScore2, totalScore + turnScore2)
              else playerTurnLoop totalScore turnScore2 diceLeft2 ans2 rs
          else playerTurnLoop totalScore turnScore2 diceLeft2 ans rs

/-- Embedding of `Game.player_turn`: the loop entered with `turn_score = 0`
and `dice_left = DICE_COUNT = 6`. -/
def player_turn (totalScore : Nat) (answers : List String) (rolls : List (List Nat)) :
    Option (TurnOutcome × Nat) :=
  playerTurnLoop totalScore 0 6 answers rolls

/-- One `for player in self.players` round of the main loop of `Game.start`:
`idxs` are the player indices still to act this round, `totals` the
cumulative totals (index 0 is the starting player, since `setup_players`
rotates the list so the starter goes first), `deltas` the net effect of each
successive `player_turn` call (0 on bust, banked turn score otherwise).
Returns updated totals, remaining deltas, and the index of the player who
reached the target, if the round ended early via `break`. -/
def playRoundAux : List Nat → List Nat → List Nat → Option (List Nat × List Nat × Option Nat)
  | [], totals, deltas => some (totals, deltas, none)
  | i :: is, totals, deltas =>
    match deltas with
    | [] => none
    | d :: ds =>
      let totals2 := totals.set i (totals.getD i 0 + d)
      if 10000 ≤ totals2.getD i 0 then some (totals2, ds, some i)
      else playRoundAux is totals2 ds

/-- The `while not game_over` loop of `Game.start`, fuelled: repeat rounds
until some player's total reaches the target; returns the totals, the unused
deltas and the index of the triggering player. -/
def mainLoop : Nat → List Nat → List Nat → Option (List Nat × List Nat × Nat)
  | 0, _, _ => none
  | fuel + 1, totals, deltas =>
    match playRoundAux (List.range totals.length) totals deltas with
    | none => none
    | some (t2, ds, some trig) => some (t2, ds, trig)
    | some (t2, ds, none) => mainLoop fuel t2 ds

/-- The final round of `Game.start`: one more `player_turn` for every player
that is not `self.starting_player`, i.e. every index other than 0. -/
def finalRoundAux : List Nat → List Nat → List Nat → Option (List Nat × List Nat)
  | [], totals, deltas => some (totals, deltas)
  | i :: is, totals, deltas =>
    if i = 0 then finalRoundAux is totals deltas
    else
      match deltas with
      | [] => none
      | d :: ds => finalRoundAux is (totals.set i (totals.getD i 0 + d)) ds

/-- Embedding of Python's `max(..., key=...)` scan for the winner
announcement: fold over the remaining scores, replacing the current best
only on a strictly greater score, tracking the best index. -/
def pyMaxAux : List Nat → Nat → Nat → Nat → Nat × Nat
  | [], bi, bs, _ => (bi, bs)
  | s :: rest, bi, bs, i =>
    if bs < s then pyMaxAux rest i s (i + 1) else pyMaxAux rest bi bs (i + 1)

/-- Index of the winner declared by `max(self.players, key=lambda p: p.total_score)`. -/
def winnerIdx : List Nat → Nat
  | [] => 0
  | s :: rest => (pyMaxAux rest 0 s 1).1

/-- Embedding of `Game.start` after setup: run the main loop, then the final
round, then announce the winner.  Returns final totals, the triggering
player's index and the winner's index. -/
def start (fuel : Nat) (totals : List Nat) (deltas : List Nat) :
    Option (List Nat × Nat × Nat) :=
  match mainLoop fuel totals deltas with
  | none => none
  | some (t2, ds, trig) =>
    match finalRoundAux (List.range t2.length) t2 ds with
    | none => none
    | some (t3, _) => some (t3, trig, winnerIdx t3)

/-! ### Bridge lemmas between the code's branch conditions and the spec's
descriptions of the straight and three-pairs patterns. -/

/-- A roll holding each of 1–6 exactly once makes the code's sorted-keys
straight check fire. -/
lemma sortedKeys_of_perm {dice : List Nat} (h : dice ~ [1, 2, 3, 4, 5, 6]) :
    dice.dedup.insertionSort (· ≤ ·) = [1, 2, 3, 4, 5, 6] := by
  have hnd : dice.Nodup := h.nodup_iff.mpr (by decide)
  rw [List.dedup_eq_self.mpr hnd]
  refine List.eq_of_perm_of_sorted ((List.perm_insertionSort _ dice).trans h)
    (List.sorted_insertionSort _ dice) (by decide)

/-- Conversely, on a well-formed roll the sorted-keys check fires only for a
permutation of `[1, 2, 3, 4, 5, 6]`. -/
lemma perm_of_sortedKeys {dice : List Nat}
    (hlen : dice.length ≤ 6) (hfaces : ∀ v ∈ dice, 1 ≤ v ∧ v ≤ 6)
    (h : dice.dedup.insertionSort (· ≤ ·) = [1, 2, 3, 4, 5, 6]) :
    dice ~ [1, 2, 3, 4, 5, 6] := by
  have hperm : dice.dedup ~ [1, 2, 3, 4, 5, 6] :=
    h ▸ (List.perm_insertionSort _ dice.dedup).symm
  have hmem : ∀ v ∈ ([1, 2, 3, 4, 5, 6] : List Nat), v ∈ dice := by
    intro v hv
    exact List.mem_dedup.mp (hperm.symm.subset hv)
  have hsum : (([1, 2, 3, 4, 5, 6] : List Nat).map dice.count).sum = dice.length := by
    have h1 : (dice.dedup.map dice.count).sum
        = (([1, 2, 3, 4, 5, 6] : List Nat).map dice.count).sum :=
      (hperm.map dice.count).sum_eq
    calc (([1, 2, 3, 4, 5, 6] : List Nat).map dice.count).sum
        = (dice.dedup.map dice.count).sum := h1.symm
      _ = dice.length := List.sum_map_count_dedup_eq_length dice
  have hone : ∀ v ∈ ([1, 2, 3, 4, 5, 6] : List Nat), dice.count v = 1 := by
    have c1 : 1 ≤ dice.count 1 := List.count_pos_iff.mpr (hmem 1 (by decide))
    have c2 : 1 ≤ dice.count 2 := List.count_pos_iff.mpr (hmem 2 (by decide))
    have c3 : 1 ≤ dice.count 3 := List.count_pos_iff.mpr (hmem 3 (by decide))
    have c4 : 1 ≤ dice.count 4 := List.count_pos_iff.mpr (hmem 4 (by decide))
    have c5 : 1 ≤ dice.count 5 := List.count_pos_iff.mpr (hmem 5 (by decide))
    have c6 : 1 ≤ dice.count 6 := List.count_pos_iff.mpr (hmem 6 (by decide))
    simp only [List.map_cons, List.map_nil, List.sum_cons, List.sum_nil] at hsum
    intro v hv
    simp only [List.mem_cons, List.not_mem_nil, or_false] at hv
    rcases hv with rfl | rfl | rfl | rfl | rfl | rfl <;> omega
  rw [List.perm_iff_count]
  intro a
  by_cases ha : a ∈ ([1, 2, 3, 4, 5, 6] : List Nat)
  · rw [hone a ha]
    simp only [List.mem_cons, List.not_mem_nil, or_false] at ha
    rcases ha with rfl | rfl | rfl | rfl | rfl | rfl <;> decide
  · have h0 : dice.count a = 0 := by
      rw [List.count_eq_zero]
      intro hmem2
      rcases hfaces a hmem2 with ⟨h1, h6⟩
      apply ha
      simp only [List.mem_cons, List.not_mem_nil, or_false]
      omega
    rw [h0, List.count_eq_zero.mpr ha]

/-- The code's three-pairs check, phrased over the roll itself rather than
over the table of distinct keys. -/
lemma threePairs_iff (dice : List Nat) :
    (dice.dedup.length = 3 ∧ (∀ v ∈ dice.dedup, dice.count v = 2)) ↔
      (dice.dedup.length = 3 ∧ (∀ v ∈ dice, dice.count v = 2)) := by
  constructor
  · rintro ⟨h3, h2⟩
    exact ⟨h3, fun v hv => h2 v (List.mem_dedup.mpr hv)⟩
  · rintro ⟨h3, h2⟩
    exact ⟨h3, fun v hv => h2 v (List.mem_dedup.mp hv)⟩

/-- C5: a roll in which the six faces 1–6 each appear exactly once scores
1000 regardless of order, and a roll with exactly three distinct faces each
appearing exactly twice scores 1000. -/
theorem score_straight_and_three_pairs :
    (∀ dice : List Nat, dice ~ [1, 2, 3, 4, 5, 6] → calculate_score dice = 1000) ∧
    (∀ dice : List Nat, dice.dedup.length = 3 → (∀ v ∈ dice, dice.count v = 2) →
      calculate_score dice = 1000) := by
  constructor
  · intro dice h
    unfold calculate_score
    rw [if_pos (sortedKeys_of_perm h)]
  · intro dice h3 h2
    unfold calculate_score
    rw [if_neg, if_pos ((threePairs_iff dice).mpr ⟨h3, h2⟩)]
    intro hs
    have := congrArg List.length hs
    rw [List.length_insertionSort] at this
    rw [h3] at this
    simp at this

/-- Witness for C5 at concrete inputs. -/
theorem score_straight_and_three_pairs_witness :
    (([6, 5, 4, 3, 2, 1] : List Nat) ~ [1, 2, 3, 4, 5, 6] ∧
      calculate_score [6, 5, 4, 3, 2, 1] = 1000) ∧
    (([4, 4, 1, 1, 5, 5] : List Nat).dedup.length = 3 ∧
      calculate_score [4, 4, 1, 1, 5, 5] = 1000) :=
  ⟨⟨by decide, score_straight_and_three_pairs.1 [6, 5, 4, 3, 2, 1] (by decide)⟩,
   ⟨by decide, score_straight_and_three_pairs.2 [4, 4, 1, 1, 5, 5] (by decide)
      (by decide)⟩⟩

/-- Dropping the zero terms of a sum over mapped values changes nothing. -/
lemma sum_map_eq_sum_filter (f : Nat → Nat) (l : List Nat) :
    (l.map f).sum = ((l.filter (fun v => f v != 0)).map f).sum := by
  induction l with
  | nil => rfl
  | cons x xs ih =>
    by_cases hx : f x = 0 <;>
      simp [List.filter_cons, hx, ih]

/-- Two duplicate-free lists that both contain the support of `f` have the
same sum of mapped values. -/
lemma sum_map_eq_of_support (f : Nat → Nat) (l₁ l₂ : List Nat)
    (h₁ : l₁.Nodup) (h₂ : l₂.Nodup)
    (hsupp : ∀ v, f v ≠ 0 → (v ∈ l₁ ∧ v ∈ l₂)) :
    (l₁.map f).sum = (l₂.map f).sum := by
  rw [sum_map_eq_sum_filter f l₁, sum_map_eq_sum_filter f l₂]
  have hp : l₁.filter (fun v => f v != 0) ~ l₂.filter (fun v => f v != 0) := by
    rw [List.perm_ext_iff_of_nodup (h₁.filter _) (h₂.filter _)]
    intro a
    simp only [List.mem_filter, bne_iff_ne, ne_eq]
    constructor
    · rintro ⟨-, ha⟩
      exact ⟨(hsupp a ha).2, ha⟩
    · rintro ⟨-, ha⟩
      exact ⟨(hsupp a ha).1, ha⟩
  exact (hp.map f).sum_eq

/-- On a well-formed roll, the set-scoring sum over the distinct keys equals
the same sum taken over the six possible faces. -/
lemma setSum_eq_faceSum {dice : List Nat}
    (hfaces : ∀ v ∈ dice, 1 ≤ v ∧ v ≤ 6) :
    (dice.dedup.map (setTerm dice)).sum
      = (([1, 2, 3, 4, 5, 6] : List Nat).map (setTerm dice)).sum := by
  refine sum_map_eq_of_support _ _ _ (List.nodup_dedup dice) (by decide) ?_
  intro v hv
  have hcnt : 3 ≤ dice.count v := by
    by_contra hc
    exact hv (by simp [setTerm, hc])
  have hmem : v ∈ dice := List.count_pos_iff.mp (by omega)
  refine ⟨List.mem_dedup.mpr hmem, ?_⟩
  rcases hfaces v hmem with ⟨h1, h6⟩
  simp only [List.mem_cons, List.not_mem_nil, or_false]
  omega

/-- C6: on a well-formed roll that is neither a straight nor three pairs,
every face appearing at least three times contributes
`(1000 if face = 1 else face * 100) * 2 ^ (count - 3)`, the absorbed dice do
not also score as leftover singles, and the stated concrete values hold. -/
theorem score_sets_doubling :
    (∀ dice : List Nat,
      1 ≤ dice.length → dice.length ≤ 6 → (∀ v ∈ dice, 1 ≤ v ∧ v ≤ 6) →
      ¬ dice ~ [1, 2, 3, 4, 5, 6] →
      ¬ (dice.dedup.length = 3 ∧ (∀ v ∈ dice, dice.count v = 2)) →
      calculate_score dice
        = (([1, 2, 3, 4, 5, 6] : List Nat).map (fun v =>
            if 3 ≤ dice.count v then
              (if v = 1 then 1000 else v * 100) * 2 ^ (dice.count v - 3)
            else 0)).sum
          + (if dice.count 1 < 3 then 100 * dice.count 1 else 0)
          + (if dice.count 5 < 3 then 50 * dice.count 5 else 0)) ∧
    calculate_score [1, 1, 1] = 1000 ∧ calculate_score [1, 1, 1, 1] = 2000 ∧
    calculate_score [5, 5, 5] = 500 ∧ calculate_score [5, 5, 5, 5] = 1000 := by
  refine ⟨?_, by decide, by decide, by decide, by decide⟩
  intro dice hlen1 hlen6 hfaces hns hntp
  unfold calculate_score
  rw [if_neg (fun hs => hns (perm_of_sortedKeys hlen6 hfaces hs)),
    if_neg (fun htp => hntp ((threePairs_iff dice).mp htp))]
  rw [setSum_eq_faceSum hfaces]
  have hfun : (fun v : Nat => if 3 ≤ dice.count v then
      (if v = 1 then 1000 else v * 100) * 2 ^ (dice.count v - 3) else 0)
      = setTerm dice := rfl
  rw [hfun]
  simp only [remCount]
  split_ifs <;> omega

/-- Witness for C6's general clause at the concrete roll `[2, 2, 2, 5]`. -/
theorem score_sets_doubling_witness :
    1 ≤ ([2, 2, 2, 5] : List Nat).length ∧
    calculate_score [2, 2, 2, 5]
      = (([1, 2, 3, 4, 5, 6] : List Nat).map (fun v =>
          if 3 ≤ List.count v [2, 2, 2, 5] then
            (if v = 1 then 1000 else v * 100) * 2 ^ (List.count v [2, 2, 2, 5] - 3)
          else 0)).sum
        + (if List.count 1 [2, 2, 2, 5] < 3 then 100 * List.count 1 [2, 2, 2, 5] else 0)
        + (if List.count 5 [2, 2, 2, 5] < 3 then 50 * List.count 5 [2, 2, 2, 5] else 0) :=
  ⟨by decide, score_sets_doubling.1 [2, 2, 2, 5] (by decide) (by decide)
    (by decide) (by decide) (by decide)⟩

/-- C7 counterexample: the straight `[1, 2, 3, 4, 5, 6]` has size in 3–6,
contains a 1 and a 5, has no face appearing three or more times, yet scores
1000 and not `100 * ones + 50 * fives = 150`. -/
theorem singles_formula_fails_on_straight :
    ([1, 2, 3, 4, 5, 6] : List Nat).length = 6 ∧
    ([1, 2, 3, 4, 5, 6] : List Nat).Nodup ∧
    calculate_score [1, 2, 3, 4, 5, 6] = 1000 ∧
    100 * List.count 1 [1, 2, 3, 4, 5, 6] + 50 * List.count 5 [1, 2, 3, 4, 5, 6]
      = 150 ∧
    (1000 : Nat) ≠ 150 :=
  ⟨by decide, by decide, by decide, by decide, by decide⟩

/-- C7 amended: on a roll of size 3–6 with at least one 1 or 5, no face
appearing three or more times, and which is neither a straight nor three
pairs, the score is `100 * ones + 50 * fives`. -/
theorem score_singles_no_sets :
    ∀ dice : List Nat,
      3 ≤ dice.length → dice.length ≤ 6 → (∀ v ∈ dice, 1 ≤ v ∧ v ≤ 6) →
      (1 ∈ dice ∨ 5 ∈ dice) → (∀ v : Nat, dice.count v < 3) →
      ¬ dice ~ [1, 2, 3, 4, 5, 6] →
      ¬ (dice.dedup.length = 3 ∧ (∀ v ∈ dice, dice.count v = 2)) →
      calculate_score dice = 100 * dice.count 1 + 50 * dice.count 5 := by
  intro dice hlen3 hlen6 hfaces hhas htriple hns hntp
  unfold calculate_score
  rw [if_neg (fun hs => hns (perm_of_sortedKeys hlen6 hfaces hs)),
    if_neg (fun htp => hntp ((threePairs_iff dice).mp htp))]
  have hzero : (dice.dedup.map (setTerm dice)).sum = 0 := by
    refine List.sum_eq_zero ?_
    intro x hx
    rcases List.mem_map.mp hx with ⟨v, -, rfl⟩
    simp [setTerm, Nat.not_le.mpr (htriple v)]
  rw [hzero]
  simp only [remCount, if_neg (Nat.not_le.mpr (htriple 1)),
    if_neg (Nat.not_le.mpr (htriple 5))]
  omega

/-- Witness for C7's amended claim at the concrete roll `[1, 5, 2]`. -/
theorem score_singles_no_sets_witness :
    3 ≤ ([1, 5, 2] : List Nat).length ∧
    calculate_score [1, 5, 2]
      = 100 * List.count 1 [1, 5, 2] + 50 * List.count 5 [1, 5, 2] := by
  refine ⟨by decide, score_singles_no_sets [1, 5, 2] (by decide) (by decide)
    (by decide) (by decide) ?_ (by decide) (by decide)⟩
  intro v
  have := List.nodup_iff_count_le_one.mp
    (show ([1, 5, 2] : List Nat).Nodup by decide) v
  omega

set_option maxHeartbeats 2000000 in
/-- One-step unfolding of the turn loop on a consumed prompt answer. -/
lemma playerTurnLoop_cons (totalScore turnScore diceLeft : Nat) (choice : String)
    (ans : List String) (rolls : List (List Nat)) :
    playerTurnLoop totalScore turnScore diceLeft (choice :: ans) rolls =
      if choice = "N" then
        if totalScore + turnScore < 800 then
          playerTurnLoop totalScore turnScore diceLeft ans rolls
        else some (.banked turnScore, totalScore + turnScore)
      else
        match rolls with
        | [] => none
        | roll :: rs =>
          let rollScore := calculate_score roll
          if rollScore = 0 then some (.busted, totalScore)
          else
            let turnScore2 := turnScore + rollScore
            let scoring := count_scoring_dice roll
            let diceLeft2 := if 0 < diceLeft - scoring then diceLeft - scoring else 6
            if diceLeft2 = 6 then
              match ans with
              | [] => none
              | hot :: ans2 =>
                if hot = "B" then some (.banked turnScore2, totalScore + turnScore2)
                else playerTurnLoop totalScore turnScore2 diceLeft2 ans2 rs
            else playerTurnLoop totalScore turnScore2 diceLeft2 ans rs := by
  rw [playerTurnLoop.eq_def]

/-- Net effect of a turn on the player's total: however the loop ends, the
returned total is the entry total unchanged (bust) or the entry total plus
the banked turn score. -/
lemma playerTurnLoop_delta :
    ∀ (n : Nat) (answers : List String) (total turnScore diceLeft : Nat)
      (rolls : List (List Nat)) (out : TurnOutcome) (final : Nat),
      answers.length ≤ n →
      playerTurnLoop total turnScore diceLeft answers rolls = some (out, final) →
      (out = .busted ∧ final = total) ∨
        ∃ ts, out = .banked ts ∧ final = total + ts := by
  intro n
  induction n with
  | zero =>
    intro answers total turnScore diceLeft rolls out final hlen h
    cases answers with
    | nil => exact Option.noConfusion h
    | cons c ans => simp at hlen
  | succ n ih =>
    intro answers total turnScore diceLeft rolls out final hlen h
    cases answers with
    | nil => exact Option.noConfusion h
    | cons choice ans =>
      rw [playerTurnLoop_cons] at h
      by_cases hc : choice = "N"
      · rw [if_pos hc] at h
        by_cases hg : total + turnScore < 800
        · rw [if_pos hg] at h
          exact ih ans total turnScore diceLeft rolls out final
            (by simp at hlen; omega) h
        · rw [if_neg hg] at h
          simp only [Option.some.injEq, Prod.mk.injEq] at h
          exact Or.inr ⟨turnScore, h.1.symm, h.2.symm⟩
      · rw [if_neg hc] at h
        cases rolls with
        | nil => exact Option.noConfusion h
        | cons roll rs =>
          simp only at h
          by_cases hz : calculate_score roll = 0
          · rw [if_pos hz] at h
            simp only [Option.some.injEq, Prod.mk.injEq] at h
            exact Or.inl ⟨h.1.symm, h.2.symm⟩
          · rw [if_neg hz] at h
            by_cases hd : (if 0 < diceLeft - count_scoring_dice roll then
                diceLeft - count_scoring_dice roll else 6) = 6
            · rw [if_pos hd] at h
              cases ans with
              | nil => exact Option.noConfusion h
              | cons hot ans2 =>
                simp only at h
                by_cases hb : hot = "B"
                · rw [if_pos hb] at h
                  simp only [Option.some.injEq, Prod.mk.injEq] at h
                  exact Or.inr ⟨_, h.1.symm, h.2.symm⟩
                · rw [if_neg hb] at h
                  exact ih ans2 total _ _ rs out final
                    (by simp at hlen; omega) h
            · rw [if_neg hd] at h
              exact ih ans total _ _ rs out final (by simp at hlen; omega) h

/-- C1: the hot-dice bank prompt ignores the entry-threshold gate.  A player
at cumulative total 0 who rolls `[2, 2, 2, 3, 3, 3]` (500 points, all six
dice scoring) and answers the hot-dice prompt with `B` banks 500, although
`0 + 500 < 800`. -/
theorem hot_dice_bank_skips_entry_gate :
    player_turn 0 ["Y", "B"] [[2, 2, 2, 3, 3, 3]]
      = some (TurnOutcome.banked 500, 500) ∧ 0 + 500 < 800 :=
  ⟨by decide, by decide⟩

/-- C2: on a straight and on three pairs the scorer consumes all six dice
(score 1000), but `count_scoring_dice` reports only the leftover 1/5 singles:
2 for a straight, 0 for three pairs such as `[2, 2, 3, 3, 6, 6]`. -/
theorem straight_three_pairs_scoring_dice_undercount :
    calculate_score [1, 2, 3, 4, 5, 6] = 1000 ∧
    count_scoring_dice [1, 2, 3, 4, 5, 6] = 2 ∧
    calculate_score [2, 2, 3, 3, 6, 6] = 1000 ∧
    count_scoring_dice [2, 2, 3, 3, 6, 6] = 0 :=
  ⟨by decide, by decide, by decide, by decide⟩

/-- C3: with two players (starter at index 0) where player 1 reaches 10,000,
the final round gives the extra turn to player 1 — the triggering player —
and none to player 0, because the code excludes `starting_player` instead of
the trigger: the run consumes a third turn delta for player 1, ending at
`[0, 20000]` with winner index 1. -/
theorem final_round_skips_starter_not_trigger :
    start 5 [0, 0] [0, 10000, 10000] = some ([0, 20000], 1, 1) ∧
    (1 : Nat) ≠ 0 :=
  ⟨by decide, by decide⟩

/-- C4 counterexample: `player_turn` changes the player's total itself.
Starting from total 0, banking a hot-dice roll of six 1s leaves the player's
`total_score` at 8000, not 0. -/
theorem player_turn_mutates_total :
    player_turn 0 ["Y", "B"] [[1, 1, 1, 1, 1, 1]]
      = some (TurnOutcome.banked 8000, 8000) ∧ (8000 : Nat) ≠ 0 :=
  ⟨by decide, by decide⟩

/-- C4 amended: `player_turn` applies the delta to the player's total itself
(returning `None` in the Python): after the call the total is unchanged on a
bust and increased by exactly the banked turn score on a bank; no delta is
left for the caller to apply. -/
theorem player_turn_total_update :
    ∀ (total : Nat) (answers : List String) (rolls : List (List Nat))
      (out : TurnOutcome) (final : Nat),
      player_turn total answers rolls = some (out, final) →
      (out = .busted → final = total) ∧
      (∀ ts, out = .banked ts → final = total + ts) := by
  intro total answers rolls out final h
  rcases playerTurnLoop_delta answers.length answers total 0 6 rolls out final
      le_rfl h with ⟨h1, h2⟩ | ⟨ts, h1, h2⟩
  · refine ⟨fun _ => h2, fun ts hts => ?_⟩
    rw [h1] at hts
    cases hts
  · constructor
    · intro hb
      rw [h1] at hb
      cases hb
    · intro ts2 hts
      rw [h1] at hts
      injection hts with he
      subst he
      exact h2

/-- Witness for C4's amended claim: banking immediately at total 900. -/
theorem player_turn_total_update_witness :
    player_turn 900 ["N"] [] = some (TurnOutcome.banked 0, 900) ∧
    ((TurnOutcome.banked 0 = TurnOutcome.busted → 900 = 900) ∧
      (∀ ts, TurnOutcome.banked 0 = TurnOutcome.banked ts → 900 = 900 + ts)) :=
  ⟨by decide, player_turn_total_update 900 ["N"] [] (TurnOutcome.banked 0) 900
    (by decide)⟩

/-- C8: a zero-scoring roll ends the turn with the player's total unchanged,
whatever turn score had accumulated, and a changed total only ever comes from
a bank; concretely, a turn at total 600 that accumulates 450 over two rolls
and then rolls `[2, 2, 3, 3, 4, 6]` (score 0) ends with total still 600. -/
theorem bust_discards_turn_score :
    (∀ (answers : List String) (total turnScore diceLeft : Nat)
      (rolls : List (List Nat)) (out : TurnOutcome) (final : Nat),
      playerTurnLoop total turnScore diceLeft answers rolls = some (out, final) →
      (out = .busted → final = total) ∧
      (final ≠ total → ∃ ts, out = .banked ts)) ∧
    player_turn 600 ["Y", "Y", "R", "Y"]
      [[1, 5, 5, 2, 3, 6], [1, 1, 5], [2, 2, 3, 3, 4, 6]]
      = some (TurnOutcome.busted, 600) := by
  constructor
  · intro answers total turnScore diceLeft rolls out final h
    rcases playerTurnLoop_delta answers.length answers total turnScore diceLeft
        rolls out final le_rfl h with ⟨h1, h2⟩ | ⟨ts, h1, h2⟩
    · exact ⟨fun _ => h2, fun hne => absurd h2 hne⟩
    · refine ⟨fun hb => ?_, fun _ => ⟨ts, h1⟩⟩
      rw [h1] at hb
      cases hb
  · decide

/-- Witness for C8's universally quantified clause at a concrete bust. -/
theorem bust_discards_turn_score_witness :
    playerTurnLoop 5 450 6 ["Y"] [[2, 3, 4]] = some (TurnOutcome.busted, 5) ∧
    ((TurnOutcome.busted = TurnOutcome.busted → 5 = 5) ∧
      ((5 : Nat) ≠ 5 → ∃ ts, TurnOutcome.busted = TurnOutcome.banked ts)) :=
  ⟨by decide, bust_discards_turn_score.1 ["Y"] 5 450 6 [[2, 3, 4]]
    TurnOutcome.busted 5 (by decide)⟩

/-- C9 counterexample: a roll with the out-of-range face 7 is not rejected —
both scoring functions silently return values (`700` and `3`). -/
theorem malformed_face_scored_silently :
    calculate_score [7, 7, 7] = 700 ∧ count_scoring_dice [7, 7, 7] = 3 :=
  ⟨by decide, by decide⟩

/-- C9 amended: the scoring engine performs no input validation; rolls of
the wrong size (0 or 7 dice) and out-of-range faces all produce ordinary
return values under the same arithmetic, never a failure. -/
theorem malformed_inputs_return_values :
    calculate_score [1, 1, 1, 1, 1, 1, 1] = 16000 ∧
    count_scoring_dice [1, 1, 1, 1, 1, 1, 1] = 8 ∧
    calculate_score [] = 0 ∧ count_scoring_dice [] = 0 ∧
    calculate_score [0, 0, 0] = 0 :=
  ⟨by decide, by decide, by decide, by decide, by decide⟩

/-- Invariant of the `max` scan: it either keeps the incoming best (when
nothing later is strictly greater) or lands on the first strictly-greater
element that every later element fails to beat. -/
lemma pyMaxAux_spec (rest : List Nat) :
    ∀ bi bs i,
      ((pyMaxAux rest bi bs i).1 = bi ∧ (pyMaxAux rest bi bs i).2 = bs ∧
        ∀ k, k < rest.length → rest.getD k 0 ≤ bs) ∨
      (∃ j, j < rest.length ∧ (pyMaxAux rest bi bs i).1 = i + j ∧
        (pyMaxAux rest bi bs i).2 = rest.getD j 0 ∧ bs < rest.getD j 0 ∧
        (∀ k, k < j → rest.getD k 0 < rest.getD j 0) ∧
        (∀ k, k < rest.length → rest.getD k 0 ≤ rest.getD j 0)) := by
  induction rest with
  | nil =>
    intro bi bs i
    exact Or.inl ⟨rfl, rfl, fun k hk => absurd hk (by simp)⟩
  | cons s rest ih =>
    intro bi bs i
    by_cases hs : bs < s
    · rw [show pyMaxAux (s :: rest) bi bs i = pyMaxAux rest i s (i + 1) by
        simp [pyMaxAux, hs]]
      rcases ih i s (i + 1) with ⟨h1, h2, h3⟩ | ⟨j, hj, h1, h2, h3, h4, h5⟩
      · refine Or.inr ⟨0, by simp, by omega, by simpa using h2, by simpa using hs, ?_, ?_⟩
        · intro k hk
          omega
        · intro k hk
          cases k with
          | zero => simp
          | succ k =>
            simp only [List.getD_cons_succ, List.getD_cons_zero]
            exact h3 k (by simp at hk; omega)
      · refine Or.inr ⟨j + 1, by simp; omega, by omega, by simpa using h2, ?_, ?_, ?_⟩
        · simp only [List.getD_cons_succ]
          omega
        · intro k hk
          cases k with
          | zero =>
            simp only [List.getD_cons_succ, List.getD_cons_zero]
            omega
          | succ k =>
            simp only [List.getD_cons_succ]
            exact h4 k (by omega)
        · intro k hk
          cases k with
          | zero =>
            simp only [List.getD_cons_succ, List.getD_cons_zero]
            omega
          | succ k =>
            simp only [List.getD_cons_succ]
            exact h5 k (by simp at hk; omega)
    · rw [show pyMaxAux (s :: rest) bi bs i = pyMaxAux rest bi bs (i + 1) by
        simp [pyMaxAux, hs]]
      rcases ih bi bs (i + 1) with ⟨h1, h2, h3⟩ | ⟨j, hj, h1, h2, h3, h4, h5⟩
      · refine Or.inl ⟨h1, h2, ?_⟩
        intro k hk
        cases k with
        | zero =>
          simp only [List.getD_cons_zero]
          omega
        | succ k =>
          simp only [List.getD_cons_succ]
          exact h3 k (by simp at hk; omega)
      · refine Or.inr ⟨j + 1, by simp; omega, by omega, by simpa using h2, ?_, ?_, ?_⟩
        · simp only [List.getD_cons_succ]
          omega
        · intro k hk
          cases k with
          | zero =>
            simp only [List.getD_cons_succ, List.getD_cons_zero]
            omega
          | succ k =>
            simp only [List.getD_cons_succ]
            exact h4 k (by omega)
        · intro k hk
          cases k with
          | zero =>
            simp only [List.getD_cons_succ, List.getD_cons_zero]
            omega
          | succ k =>
            simp only [List.getD_cons_succ]
            exact h5 k (by simp at hk; omega)

/-- C10: the winner announcement is deterministic under ties — the scan
returns a valid index holding the maximum total, and every player earlier in
the (rotated) turn order has a strictly smaller total, so the first maximal
player wins. -/
theorem winner_is_first_max :
    ∀ totals : List Nat, totals ≠ [] →
      winnerIdx totals < totals.length ∧
      (∀ k, k < totals.length →
        totals.getD k 0 ≤ totals.getD (winnerIdx totals) 0) ∧
      (∀ k, k < winnerIdx totals →
        totals.getD k 0 < totals.getD (winnerIdx totals) 0) := by
  intro totals hne
  match totals with
  | [] => exact absurd rfl hne
  | t :: rest =>
    show (pyMaxAux rest 0 t 1).1 < rest.length + 1 ∧ _ ∧ _
    rcases pyMaxAux_spec rest 0 t 1 with ⟨h1, h2, h3⟩ | ⟨j, hj, h1, h2, h3, h4, h5⟩
    · rw [winnerIdx, h1]
      refine ⟨by simp, ?_, ?_⟩
      · intro k hk
        cases k with
        | zero => simp
        | succ k =>
          simp only [List.getD_cons_succ, List.getD_cons_zero]
          calc rest.getD k 0 ≤ t := h3 k (by simp at hk; omega)
            _ = (t :: rest).getD 0 0 := by simp
            _ = _ := by simp
      · intro k hk
        omega
    · rw [winnerIdx, h1]
      have hget : (t :: rest).getD (1 + j) 0 = rest.getD j 0 := by
        rw [show 1 + j = j + 1 by omega]
        simp
      refine ⟨by omega, ?_, ?_⟩
      · intro k hk
        rw [hget, ← h2]
        cases k with
        | zero =>
          simp only [List.getD_cons_zero]
          omega
        | succ k =>
          simp only [List.getD_cons_succ]
          rw [h2]
          exact h5 k (by simp at hk; omega)
      · intro k hk
        rw [hget, ← h2]
        cases k with
        | zero =>
          simp only [List.getD_cons_zero]
          omega
        | succ k =>
          simp only [List.getD_cons_succ]
          rw [h2]
          exact h4 k (by omega)

/-- Witness for C10 on a concrete tied list: with totals `[5, 7, 7]` the
winner is index 1, the earliest player holding the maximum. -/
theorem winner_is_first_max_witness :
    ([5, 7, 7] : List Nat) ≠ [] ∧
    (winnerIdx [5, 7, 7] < ([5, 7, 7] : List Nat).length ∧
      (∀ k, k < ([5, 7, 7] : List Nat).length →
        List.getD [5, 7, 7] k 0 ≤ List.getD [5, 7, 7] (winnerIdx [5, 7, 7]) 0) ∧
      (∀ k, k < winnerIdx [5, 7, 7] →
        List.getD [5, 7, 7] k 0 < List.getD [5, 7, 7] (winnerIdx [5, 7, 7]) 0)) :=
  ⟨by decide, winner_is_first_max [5, 7, 7] (by decide)⟩

end TenThousand
